import Mathlib

/-!
Verification of the cross-reference annotation core in `src/analyze_code.js`.

The embedding models the abstract syntax tree and the symbol-resolution
oracle as a finite table of node records and symbol records (`Env`).  Node
ids index the table; `parent`, `name`, `propertyName`, `moduleSpecifier`,
`moduleRefExpr` are optional node ids mirroring the corresponding TypeScript
AST fields; `symtab` records the oracle's `getSymbolAtLocation` answer per
node.  The table lists the nodes in pre-order visitation order.

Modelled from the spec (the corresponding utility modules `utils.js` and
`replacements.js` are not under `src/`):
* `walkAST` visits every node exactly once, pre-order — modelled by folding
  over `List.range env.nodes.length`, the node table being in pre-order;
* `escapeHtml` escapes the markup-significant characters of a string.

Everything else is translated directly from `src/analyze_code.js`:
`getStatement`, `getRemoteLink`, `isDefinition`, `idFor` (as the
cache-threaded, fuelled `idForSt`), the per-node visitor of
`linkToDefinitions` (as `visitNodeSt`), and the pass itself
(`linkToDefinitions`).  JavaScript exceptions (a `TypeError` from
`idFor(undefined)` when a declaration carries no name, or non-termination
on a malformed parent chain) are modelled as `Except.error`; the pass
propagates the first error, leaving the id cache in whatever state it had,
exactly as the source does (`idCache.clear()` runs after `walkAST`
returns, not in a `finally` block).
-/

set_option maxRecDepth 100000

set_option synthInstance.maxSize 4000

inductive SKind where
  | identifier
  | importDecl
  | exportDecl
  | importEqualsDecl
  | stringLiteral
  | namedImports
  | namedExports
  | namespaceImport
  | sourceFile
  | block
  | moduleBlock
  | caseClause
  | parameter
  | other
deriving DecidableEq

/-- Node record: one entry of the AST table.  `start`/`stop` are
`getStart()`/`getEnd()`, `text` is `getText()` (the source slice of the
node), `litText` is the `.text` property of a string literal (its unquoted
value), `srcFile` is the node id of `getSourceFile()`, `file` its
`fileName`. -/
structure Node where
  kind : SKind := .other
  start : Nat := 0
  stop : Nat := 0
  text : String := ""
  litText : String := ""
  parent : Option Nat := none
  name : Option Nat := none
  propertyName : Option Nat := none
  moduleSpecifier : Option Nat := none
  moduleRefExpr : Option Nat := none
  srcFile : Nat := 0
  file : String := ""
deriving DecidableEq

/-- SymInfo record, as answered by the oracle: `declarations` and
`valueDeclaration` are declaration node ids, `exports` lists the symbol ids
of a module symbol's export table (`symbol.exports.values()`), `name` is
`symbol.name`. -/
structure SymInfo where
  name : String := ""
  declarations : List Nat := []
  valueDeclaration : Option Nat := none
  exports : List Nat := []
deriving DecidableEq

structure Env where
  nodes : List Node
  symbols : List SymInfo
  symtab : List (Option Nat)

def defaultNode : Node := {}

def defaultSymbol : SymInfo := {}

def Env.node (env : Env) (i : Nat) : Node := (env.nodes.get? i).getD defaultNode

def Env.sym (env : Env) (i : Nat) : SymInfo := (env.symbols.get? i).getD defaultSymbol

/-- `typeChecker.getSymbolAtLocation` for a node id. -/
def Env.symbolAt (env : Env) (i : Nat) : Option Nat := (env.symtab.get? i).getD none

/-- `typeChecker.getSymbolAtLocation` applied to a possibly-absent node
(`getSymbolAtLocation(undefined)` returns `undefined`). -/
def Env.symbolAtOpt (env : Env) : Option Nat → Option Nat
  | none => none
  | some i => env.symbolAt i

/-- Dereference an optional node id; an absent node reads as the default
(all-empty) record. -/
def pnode (env : Env) : Option Nat → Node
  | none => defaultNode
  | some i => env.node i

/-- Output fragment (`Token` of the span/token model): `safe` fragments are
already-rendered markup, unsafe ones raw source text. -/
structure Token where
  start : Nat
  safe : Bool
  content : String
deriving DecidableEq

def safeTok (start : Nat) (content : String) : Token := ⟨start, true, content⟩

def unsafeTok (start : Nat) (content : String) : Token := ⟨start, false, content⟩

/-- Argument of `createDefinition`/`createRef`: a raw string or an
already-built token list. -/
inductive Content where
  | str (s : String)
  | toks (ts : List Token)
deriving DecidableEq

/-- JavaScript `content.length`: string length, or array length. -/
def Content.len : Content → Nat
  | .str s => s.length
  | .toks ts => ts.length

def embed (start : Nat) : Content → List Token
  | .str s => [unsafeTok start s]
  | .toks ts => ts

/-- Replacement record; `frags` is the JS field `with`. -/
structure Replacement where
  start : Nat
  stop : Nat
  frags : List Token
deriving DecidableEq

def escapeChar (c : Char) : String :=
  if c = '&' then "&amp;"
  else if c = '<' then "&lt;"
  else if c = '>' then "&gt;"
  else if c = '"' then "&quot;"
  else String.singleton c

/-- Modelled from the spec: the HTML-escaping utility from `utils.js`
(not under `src/`), escaping the markup-significant characters. -/
def escapeHtml (s : String) : String := String.join (s.data.map escapeChar)

def createDefinition (start : Nat) (id : String) (content : Content) (len : Nat) :
    List Token :=
  [safeTok start ("<span class=\"definition\" id=\"" ++ escapeHtml id ++ "\">")]
    ++ embed start content
    ++ [safeTok (start + len) "</span>"]

def createRef (start : Nat) (href : String) (content : Content) (len : Nat) :
    List Token :=
  [safeTok start ("<a class=\"ref\" href=\"" ++ escapeHtml href ++ "\">")]
    ++ embed start content
    ++ [safeTok (start + len) "</a>"]

def boundaryKind : SKind → Bool
  | .sourceFile => true
  | .block => true
  | .moduleBlock => true
  | .caseClause => true
  | _ => false

def getStatementAux (env : Env) : Nat → Nat → Nat
  | 0, n => n
  | fuel + 1, n =>
    match (env.node n).parent with
    | none => n
    | some p =>
      if boundaryKind (env.node p).kind then n else getStatementAux env fuel p

/-- `getStatement`: walk parent links upward until the parent is a source
file, block, module block or case/default clause.  The parent chain of a
real AST is finite; the walk is fuelled by the table size. -/
def getStatement (env : Env) (n : Nat) : Nat := getStatementAux env env.nodes.length n

/-- The module specifier's literal text, `statement.moduleSpecifier.text`
(all call sites guard that the specifier is present). -/
def specifierText (env : Env) (st : Nat) : String :=
  match (env.node st).moduleSpecifier with
  | some v => (env.node v).litText
  | none => ""

/-- `getRemoteLink(node, statement)`. -/
def getRemoteLink (env : Env) (n st : Nat) : String :=
  let p := pnode env (env.node n).parent
  specifierText env st ++ "#" ++
    (match p.propertyName with
     | some pn => (env.node pn).text
     | none =>
       if (pnode env p.parent).kind = .namedImports ∨
          (pnode env p.parent).kind = .namedExports then
         (pnode env p.name).text
       else "default")

def libPrefixed (s : String) : Bool := "/@ts:lib".data.isPrefixOf s.data

/-- `isDefinition(symbol, node)`.  The empty-filter case (all declarations
built-in with no value declaration) is unreachable from the caller, which
only calls after the built-in `every` check failed; it is modelled as
`false`. -/
def isDefinition (env : Env) (sid n : Nat) : Bool :=
  match (env.sym sid).valueDeclaration with
  | some vd => (env.node vd).name == some n
  | none =>
    match (if 1 < (env.sym sid).declarations.length then
             (env.sym sid).declarations.filter (fun d => !(libPrefixed (env.node d).file))
           else (env.sym sid).declarations) with
    | [] => false
    | d :: _ => (env.node d).name == some n

/-- Condition of the `console.log` diagnostic at `isDefinition`: no value
declaration, several declaration sites, and more than one of them
non-built-in. -/
def ambiguousLocalDecls (env : Env) (sid : Nat) : Bool :=
  (env.sym sid).valueDeclaration.isNone &&
    decide (1 < (env.sym sid).declarations.length) &&
    decide (1 <
      ((env.sym sid).declarations.filter
        (fun d => !(libPrefixed (env.node d).file))).length)

/-- The export-entry search at the head of `idFor`: the first symbol in the
enclosing module's export table one of whose declarations resolves, by its
rename-source (`propertyName`) or its local name, to the same symbol as the
node. -/
def exportEntryFor (env : Env) (n : Nat) : Option SymInfo :=
  match env.symbolAt (env.node n).srcFile with
  | none => none
  | some ms =>
    ((env.sym ms).exports.map (fun i => env.sym i)).find? (fun ex =>
      ex.declarations.any (fun d =>
        env.symbolAtOpt (env.node d).propertyName == env.symbolAt n ||
        env.symbolAtOpt (env.node d).name == env.symbolAt n))

/-- The inner `check` walk of `idFor`: the nearest ancestor-or-self that is
a parameter declaration, fuelled by the table size. -/
def findParam (env : Env) : Nat → Option Nat → Option Nat
  | _, none => none
  | 0, some _ => none
  | fuel + 1, some i =>
    if (env.node i).kind = .parameter then some i
    else findParam env fuel (env.node i).parent

/-- The non-stable composite id `symbol-<escaped-text>-<start-offset>`. -/
def fallbackId (env : Env) (n : Nat) : String :=
  "symbol-" ++ escapeHtml (env.node n).text ++ "-" ++ toString (env.node n).start

/-- The identity-allocator cache (`idCache`), newest entry first; a lookup
takes the first entry for a key, so prepending models `Map.set`. -/
abbrev Cache := List (Nat × String)

def cacheGet (c : Cache) (n : Nat) : Option String :=
  (c.find? (fun q => q.1 == n)).map (fun q => q.2)

def cacheSet (c : Cache) (n : Nat) (v : String) : Cache := (n, v) :: c

/-- `idFor(node, typeChecker)`, threading the cache.  The input is the
possibly-absent node the caller passes (`idFor(undefined)` raises a
`TypeError` before touching the cache, modelled as `Except.error`); fuel
bounds the recursion through enclosing functions' names, and running out
models non-termination on a malformed parent chain. -/
def idForSt (env : Env) : Nat → Cache → Option Nat → (Except Unit String) × Cache
  | _, c, none => (.error (), c)
  | 0, c, some n =>
    (match cacheGet c n with
     | some v => (.ok v, c)
     | none => (.error (), c))
  | fuel + 1, c, some n =>
    match cacheGet c n with
    | some v => (.ok v, c)
    | none =>
        match exportEntryFor env n with
        | some ex => (.ok ex.name, cacheSet c n ex.name)
        | none =>
          if ¬ ((pnode env (env.node (getStatement env n)).parent).kind = .sourceFile) then
            (.ok (fallbackId env n), cacheSet c n (fallbackId env n))
          else
            match findParam env env.nodes.length (some n) with
            | none =>
              (.ok ("symbol-" ++ (env.node n).text),
                cacheSet c n ("symbol-" ++ (env.node n).text))
            | some param =>
              match (pnode env (env.node param).parent).name with
              | none => (.ok (fallbackId env n), cacheSet c n (fallbackId env n))
              | some fn =>
                match idForSt env fuel c (some fn) with
                | (.ok fid, c1) =>
                  (.ok (fid ++ "-" ++ (env.node n).text),
                    cacheSet c1 n (fid ++ "-" ++ (env.node n).text))
                | (.error e, c1) => (.error e, c1)

/-- Value `idFor` computes for a node whose resolution does not recurse into
an enclosing function's name (every case of the body except the last). -/
def idForVal (env : Env) (n : Nat) : String :=
  match exportEntryFor env n with
  | some ex => ex.name
  | none =>
    if ¬ ((pnode env (env.node (getStatement env n)).parent).kind = .sourceFile) then
      fallbackId env n
    else
      match findParam env env.nodes.length (some n) with
      | none => "symbol-" ++ (env.node n).text
      | some param =>
        match (pnode env (env.node param).parent).name with
        | none => fallbackId env n
        | some _ => ""

/-- True when `idFor`'s body resolves the node without the recursive call
(export entry found, or nested statement, or no enclosing parameter, or a
parameter of an unnamed function). -/
def idForStep1 (env : Env) (n : Nat) : Bool :=
  match exportEntryFor env n with
  | some _ => true
  | none =>
    if ¬ ((pnode env (env.node (getStatement env n)).parent).kind = .sourceFile) then
      true
    else
      match findParam env env.nodes.length (some n) with
      | none => true
      | some param => ((pnode env (env.node param).parent).name).isNone

/-- `transformImportSource(specifier)`: the module-specifier literal's span,
replaced with a safe fragment; `text` is the raw source slice
`sourceFile.text.substring(start, end)`, which for a string-literal node is
its `getText()`. -/
def transformImportSource (env : Env) (v : Nat) : Replacement :=
  ⟨(env.node v).start, (env.node v).stop,
    [safeTok (env.node v).start
      ("<a href=\"" ++ escapeHtml (env.node v).litText ++ "\" class=\"hljs-string\">"
        ++ escapeHtml (env.node v).text ++ "</a>")]⟩

/-- Replacement over a node's own span. -/
def mkRepl (env : Env) (n : Nat) (frags : List Token) : Replacement :=
  ⟨(env.node n).start, (env.node n).stop, frags⟩

def defChunk (env : Env) (n : Nat) (id : String) : Replacement :=
  mkRepl env n
    (createDefinition (env.node n).start id (.str (env.node n).text) (env.node n).text.length)

def refChunk (env : Env) (n : Nat) (href : String) : Replacement :=
  mkRepl env n
    (createRef (env.node n).start href (.str (env.node n).text) (env.node n).text.length)

/-- The prefix chosen for an imported definition's id:
`ts.isImportDeclaration(statement) ? "symbol-" : ""`. -/
def importedIdPrefix (env : Env) (st : Nat) : String :=
  if (env.node st).kind = .importDecl then "symbol-" else ""

/-- `node.parent.name === node`. -/
def isLocalDeclarationB (env : Env) (n : Nat) : Bool :=
  (pnode env (env.node n).parent).name == some n

/-- `!ts.isNamespaceImport(node.parent) && (!node.parent.propertyName ||
node.parent.propertyName === node)`. -/
def isRemoteDeclarationB (env : Env) (n : Nat) : Bool :=
  !(decide ((pnode env (env.node n).parent).kind = .namespaceImport)) &&
    ((pnode env (env.node n).parent).propertyName == (none : Option Nat) ||
      (pnode env (env.node n).parent).propertyName == some n)

/-- The replacement pushed for an imported-and-linked definition: a remote
reference link whose content is the definition anchor (lines 121-130 of the
source). -/
def importedLinkedChunk (env : Env) (n st : Nat) : Replacement :=
  mkRepl env n
    (createRef (env.node n).start (getRemoteLink env n st)
      (.toks (createDefinition (env.node n).start
        (importedIdPrefix env st ++ (env.node n).text)
        (.str (env.node n).text) (env.node n).text.length))
      (env.node n).text.length)

/-- The replacement pushed for an imported definition without a remote
link (lines 132-138 of the source). -/
def importedDefChunk (env : Env) (n st : Nat) : Replacement :=
  defChunk env n (importedIdPrefix env st ++ (env.node n).text)

/-- The part of the Identifier case after the import branches
(lines 141-173 of the source). -/
def identTail (env : Env) (c : Cache) (n : Nat) :
    (Except Unit (List Replacement)) × Cache :=
  match env.symbolAt n with
  | none =>
    if (pnode env (env.node n).parent).propertyName = some n ∧
        ((env.node (getStatement env n)).moduleSpecifier).isSome then
      (.ok [refChunk env n (getRemoteLink env n (getStatement env n))], c)
    else (.ok [], c)
  | some sid =>
    match (env.sym sid).declarations with
    | [] => (.ok [], c)
    | d0 :: _ =>
      if (((match (env.sym sid).valueDeclaration with
            | some v => [v]
            | none => []) ++ (env.sym sid).declarations).all
           (fun d => libPrefixed (env.node d).file)) then
        (.ok [], c)
      else
        if isDefinition env sid n then
          match idForSt env (env.nodes.length + 1) c (some n) with
          | (.ok id, c1) => (.ok [defChunk env n id], c1)
          | (.error e, c1) => (.error e, c1)
        else
          match idForSt env (env.nodes.length + 1) c
              ((env.node ((env.sym sid).valueDeclaration.getD d0)).name) with
          | (.ok id, c1) => (.ok [refChunk env n ("#" ++ id)], c1)
          | (.error e, c1) => (.error e, c1)

/-- One step of the `walkAST` visitor of `linkToDefinitions`. -/
def visitNodeSt (env : Env) (c : Cache) (n : Nat) :
    (Except Unit (List Replacement)) × Cache :=
  match (env.node n).kind with
  | .identifier =>
    if ((env.node (getStatement env n)).moduleSpecifier).isSome &&
        isLocalDeclarationB env n && isRemoteDeclarationB env n then
      (.ok [importedLinkedChunk env n (getStatement env n)], c)
    else if ((env.node (getStatement env n)).moduleSpecifier).isSome &&
        isLocalDeclarationB env n then
      (.ok [importedDefChunk env n (getStatement env n)], c)
    else identTail env c n
  | .importDecl =>
    match (env.node n).moduleSpecifier with
    | some v => (.ok [transformImportSource env v], c)
    | none => (.ok [], c)
  | .exportDecl =>
    match (env.node n).moduleSpecifier with
    | some v => (.ok [transformImportSource env v], c)
    | none => (.ok [], c)
  | .importEqualsDecl =>
    match (env.node n).moduleRefExpr with
    | some v =>
      if (env.node v).kind = .stringLiteral then (.ok [transformImportSource env v], c)
      else (.ok [], c)
    | none => (.ok [], c)
  | _ => (.ok [], c)

/-- The traversal: visit the listed nodes in order, accumulating the pushed
replacements and threading the id cache; the first error aborts the walk. -/
def runNodes (env : Env) : List Nat → Cache → (Except Unit (List Replacement)) × Cache
  | [], c => (.ok [], c)
  | n :: rest, c =>
    match visitNodeSt env c n with
    | (.ok ch, c1) =>
      match runNodes env rest c1 with
      | (.ok rs, c2) => (.ok (ch ++ rs), c2)
      | (.error e, c2) => (.error e, c2)
    | (.error e, c1) => (.error e, c1)

/-- `linkToDefinitions`: one full pass over the file.  On normal completion
`idCache.clear()` empties the cache; an exception propagates out of
`walkAST` before the clear is reached, so the cache keeps its state. -/
def linkToDefinitions (env : Env) (c0 : Cache) :
    (Except Unit (List Replacement)) × Cache :=
  match runNodes env (List.range env.nodes.length) c0 with
  | (.ok reps, _) => (.ok reps, [])
  | (.error e, c) => (.error e, c)

/-- The node whose span a visit of `n` may replace: an identifier replaces
its own span, an import/export declaration its module specifier's span,
an import-equals declaration its string-literal module reference's span. -/
def targetOf (env : Env) (n : Nat) : Option Nat :=
  match (env.node n).kind with
  | .identifier => some n
  | .importDecl => (env.node n).moduleSpecifier
  | .exportDecl => (env.node n).moduleSpecifier
  | .importEqualsDecl =>
    match (env.node n).moduleRefExpr with
    | some v => if (env.node v).kind = .stringLiteral then some v else none
    | none => none
  | _ => none

/-- Kinds whose spans are leaf spans subject to the disjointness guarantee
of the data model. -/
def leafKind (k : SKind) : Bool :=
  match k with
  | .identifier => true
  | .stringLiteral => true
  | _ => false

/-- Well-formedness of an environment, the guarantees the external parser
provides: distinct identifier/string-literal nodes occupy disjoint spans,
a module specifier of an import/export declaration is a string literal, and
distinct statements do not share a replacement target. -/
def WF (env : Env) : Prop :=
  (∀ i < env.nodes.length, ∀ j < env.nodes.length, i ≠ j →
    leafKind (env.node i).kind = true → leafKind (env.node j).kind = true →
    (env.node i).stop ≤ (env.node j).start ∨ (env.node j).stop ≤ (env.node i).start) ∧
  (∀ n < env.nodes.length,
    ((env.node n).kind = .importDecl ∨ (env.node n).kind = .exportDecl) →
    ((env.node n).moduleSpecifier = none ∨
      (env.node (((env.node n).moduleSpecifier).getD 0)).kind = .stringLiteral)) ∧
  (∀ n < env.nodes.length, ∀ m < env.nodes.length, n ≠ m →
    targetOf env n = none ∨ targetOf env n ≠ targetOf env m)

/-- Spans of two replacements are disjoint. -/
def Disj (a b : Replacement) : Prop := a.stop ≤ b.start ∨ b.stop ≤ a.start

/-- Occurrence of symbol `sid`: an identifier node the oracle resolves to
`sid`. -/
def occPred (env : Env) (sid n : Nat) : Bool :=
  decide ((env.node n).kind = .identifier) && (env.symbolAt n == some sid)

def occIds (env : Env) (sid : Nat) : List Nat :=
  (List.range env.nodes.length).filter (occPred env sid)

/-- A replacement lying exactly on the span of some occurrence of `sid`. -/
def atOcc (env : Env) (sid : Nat) (r : Replacement) : Bool :=
  (occIds env sid).any (fun n =>
    decide (r.start = (env.node n).start) && decide (r.stop = (env.node n).stop))

/-! ### Concrete environments

Small environments modelling concrete source files, used to instantiate the
theorems below.  Node tables are in pre-order; spans and texts follow the
modelled source. -/

/-- Environment for `const x = 0; x; x`: one declaration of `x` (node 1,
named by identifier node 2) and two references (nodes 3 and 4). -/
def envA : Env :=
  { nodes :=
      [ { kind := .sourceFile, stop := 100 },
        { kind := .other, parent := some 0, name := some 2, file := "/f.ts" },
        { kind := .identifier, start := 4, stop := 5, text := "x", parent := some 1,
          srcFile := 0, file := "/f.ts" },
        { kind := .identifier, start := 10, stop := 11, text := "x", parent := some 0,
          srcFile := 0, file := "/f.ts" },
        { kind := .identifier, start := 20, stop := 21, text := "x", parent := some 0,
          srcFile := 0, file := "/f.ts" } ],
    symbols := [ { name := "x", declarations := [1], valueDeclaration := some 1 } ],
    symtab := [none, none, some 0, some 0, some 0] }

/-- Environment with a nameless declaration: symbol `b` (symbol 1) has a
single declaration (node 4) whose `name` is absent, so annotating its
reference calls `idFor(undefined)`, which raises; symbol `a` is processed
first and caches an id. -/
def envB : Env :=
  { nodes :=
      [ { kind := .sourceFile, stop := 100 },
        { kind := .identifier, start := 2, stop := 3, text := "a", parent := some 0,
          srcFile := 0, file := "/f.ts" },
        { kind := .other, parent := some 0, name := some 1, file := "/f.ts" },
        { kind := .identifier, start := 8, stop := 9, text := "b", parent := some 0,
          srcFile := 0, file := "/f.ts" },
        { kind := .other, parent := some 0, file := "/f.ts" } ],
    symbols :=
      [ { name := "a", declarations := [2], valueDeclaration := some 2 },
        { name := "b", declarations := [4] } ],
    symtab := [none, some 0, none, some 1, none] }

/-- Environment for `import {x} from "./m"`: import declaration node 1,
string literal node 2, import clause node 3, named-imports node 4, import
specifier node 5, local name `x` at node 6. -/
def envImp : Env :=
  { nodes :=
      [ { kind := .sourceFile, stop := 40 },
        { kind := .importDecl, stop := 22, parent := some 0, moduleSpecifier := some 2 },
        { kind := .stringLiteral, start := 16, stop := 21, text := "\"./m\"",
          litText := "./m", parent := some 1 },
        { kind := .other, parent := some 1 },
        { kind := .namedImports, parent := some 3 },
        { kind := .other, parent := some 4, name := some 6 },
        { kind := .identifier, start := 8, stop := 9, text := "x", parent := some 5,
          srcFile := 0 } ],
    symbols := [],
    symtab := [] }

/-- Environment for `import * as ns from "./m"`: namespace import node 4
binds `ns` at node 5. -/
def envNs : Env :=
  { nodes :=
      [ { kind := .sourceFile, stop := 40 },
        { kind := .importDecl, stop := 25, parent := some 0, moduleSpecifier := some 2 },
        { kind := .stringLiteral, start := 19, stop := 24, text := "\"./m\"",
          litText := "./m", parent := some 1 },
        { kind := .other, parent := some 1 },
        { kind := .namespaceImport, parent := some 3, name := some 5 },
        { kind := .identifier, start := 12, stop := 14, text := "ns", parent := some 4,
          srcFile := 0 } ],
    symbols := [],
    symtab := [] }

/-- Environment for `import { a as b } from "m"`: import specifier node 5
carries rename source `a` (node 6) and local name `b` (node 7). -/
def envRen : Env :=
  { nodes :=
      [ { kind := .sourceFile, stop := 40 },
        { kind := .importDecl, stop := 26, parent := some 0, moduleSpecifier := some 2 },
        { kind := .stringLiteral, start := 21, stop := 24, text := "\"m\"",
          litText := "m", parent := some 1 },
        { kind := .other, parent := some 1 },
        { kind := .namedImports, parent := some 3 },
        { kind := .other, parent := some 4, propertyName := some 6, name := some 7 },
        { kind := .identifier, start := 9, stop := 10, text := "a", parent := some 5,
          srcFile := 0 },
        { kind := .identifier, start := 14, stop := 15, text := "b", parent := some 5,
          srcFile := 0 } ],
    symbols := [],
    symtab := [] }

/-- Environment for `import d from "m"`: the import clause (node 3) itself
names the default-import binding `d` (node 4). -/
def envDef : Env :=
  { nodes :=
      [ { kind := .sourceFile, stop := 40 },
        { kind := .importDecl, stop := 20, parent := some 0, moduleSpecifier := some 2 },
        { kind := .stringLiteral, start := 14, stop := 17, text := "\"m\"",
          litText := "m", parent := some 1 },
        { kind := .other, parent := some 1, name := some 4 },
        { kind := .identifier, start := 7, stop := 8, text := "d", parent := some 3,
          srcFile := 0 } ],
    symbols := [],
    symtab := [] }

/-- Environment for `import { a as b } from "m"; export { b as c }`: the
module symbol (symbol 2) exports symbol `c` (symbol 1), whose export
specifier declaration (node 2) has rename source `b` (node 3) resolving to
the same symbol as the local binding `b` (node 1, symbol 0). -/
def envC : Env :=
  { nodes :=
      [ { kind := .sourceFile, stop := 100, file := "/f.ts" },
        { kind := .identifier, start := 14, stop := 15, text := "b", parent := some 0,
          srcFile := 0, file := "/f.ts" },
        { kind := .other, propertyName := some 3, name := some 4, parent := some 0,
          file := "/f.ts" },
        { kind := .identifier, start := 36, stop := 37, text := "b", srcFile := 0,
          file := "/f.ts" },
        { kind := .identifier, start := 41, stop := 42, text := "c", srcFile := 0,
          file := "/f.ts" } ],
    symbols :=
      [ { name := "b", declarations := [9] },
        { name := "c", declarations := [2] },
        { name := "/f", exports := [1] } ],
    symtab := [some 2, some 0, none, some 0, some 1] }

/-- Environment for `console.log`: the occurrence of `console` (node 1)
resolves to a symbol whose only declaration (node 3) lives in the bundled
standard library. -/
def envBi : Env :=
  { nodes :=
      [ { kind := .sourceFile, stop := 100, file := "/f.ts" },
        { kind := .identifier, start := 5, stop := 12, text := "console", parent := some 2,
          srcFile := 0, file := "/f.ts" },
        { kind := .other, parent := some 0, file := "/f.ts" },
        { kind := .other, file := "/@ts:lib/lib.esnext.d.ts", name := some 4 },
        { kind := .identifier, file := "/@ts:lib/lib.esnext.d.ts" } ],
    symbols := [ { name := "console", declarations := [3], valueDeclaration := some 3 } ],
    symtab := [none, some 0, none, none, none] }

/-- Environment for a type `T` merged between the standard library and the
user file: symbol 0 has no value declaration and two declaration sites, the
first (node 2, named by node 3) inside a library `declare namespace` block,
the second (node 4, named by node 5) local; node 7 references `T`. -/
def env9 : Env :=
  { nodes :=
      [ { kind := .sourceFile, stop := 100, file := "/f.ts" },
        { kind := .moduleBlock, parent := some 6, file := "/@ts:lib/lib.esnext.d.ts" },
        { kind := .other, parent := some 1, name := some 3,
          file := "/@ts:lib/lib.esnext.d.ts" },
        { kind := .identifier, start := 1000, stop := 1001, text := "T", parent := some 2,
          srcFile := 6, file := "/@ts:lib/lib.esnext.d.ts" },
        { kind := .other, parent := some 0, name := some 5, file := "/f.ts" },
        { kind := .identifier, start := 4, stop := 5, text := "T", parent := some 4,
          srcFile := 0, file := "/f.ts" },
        { kind := .sourceFile, file := "/@ts:lib/lib.esnext.d.ts" },
        { kind := .identifier, start := 20, stop := 21, text := "T", parent := some 0,
          srcFile := 0, file := "/f.ts" } ],
    symbols := [ { name := "T", declarations := [2, 4] } ],
    symtab := [none, none, none, none, none, some 0, none, some 0] }

/-! ### Cache lemmas -/

theorem cacheGet_set_self (c : Cache) (n : Nat) (v : String) :
    cacheGet (cacheSet c n v) n = some v := by
  simp [cacheGet, cacheSet, List.find?]

theorem cacheGet_set_other (c : Cache) (n m : Nat) (v : String) (h : m ≠ n) :
    cacheGet (cacheSet c n v) m = cacheGet c m := by
  have hf : (n == m) = false := by
    simp only [beq_eq_false_iff_ne, ne_eq]
    exact fun he => h he.symm
  simp [cacheGet, cacheSet, List.find?, hf]

/-- A successful `idFor` call leaves its own node cached with the returned
value. -/
theorem idForSt_ok_cached (env : Env) (fuel : Nat) (c : Cache) (n : Nat)
    (s : String) (c' : Cache) (h : idForSt env fuel c (some n) = (.ok s, c')) :
    cacheGet c' n = some s := by
  match fuel with
  | 0 =>
    unfold idForSt at h
    split at h <;> simp_all
  | fuel + 1 =>
    unfold idForSt at h
    split at h
    · rename_i v heq
      simp only [Prod.mk.injEq, Except.ok.injEq] at h
      rw [← h.2, ← h.1]; exact heq
    · split at h
      · simp only [Prod.mk.injEq, Except.ok.injEq] at h
        rw [← h.2, ← h.1]; exact cacheGet_set_self _ _ _
      · split at h
        · simp only [Prod.mk.injEq, Except.ok.injEq] at h
          rw [← h.2, ← h.1]; exact cacheGet_set_self _ _ _
        · split at h
          · simp only [Prod.mk.injEq, Except.ok.injEq] at h
            rw [← h.2, ← h.1]; exact cacheGet_set_self _ _ _
          · split at h
            · simp only [Prod.mk.injEq, Except.ok.injEq] at h
              rw [← h.2, ← h.1]; exact cacheGet_set_self _ _ _
            · split at h
              · simp only [Prod.mk.injEq, Except.ok.injEq] at h
                rw [← h.2, ← h.1]; exact cacheGet_set_self _ _ _
              · simp only [Prod.mk.injEq] at h
                exact absurd h.1 (by simp)

/-- `idFor` never drops a cache entry. -/
theorem idForSt_preserves (env : Env) :
    ∀ (fuel : Nat) (c : Cache) (o : Option Nat) (r : Except Unit String) (c' : Cache)
      (m : Nat) (s : String), idForSt env fuel c o = (r, c') →
      cacheGet c m = some s → cacheGet c' m = some s := by
  intro fuel
  induction fuel with
  | zero =>
    intro c o r c' m s h hm
    match o with
    | none =>
      unfold idForSt at h
      simp only [Prod.mk.injEq] at h
      rw [← h.2]; exact hm
    | some n =>
      unfold idForSt at h
      split at h <;> (simp only [Prod.mk.injEq] at h; rw [← h.2]; exact hm)
  | succ fuel ih =>
    intro c o r c' m s h hm
    match o with
    | none =>
      unfold idForSt at h
      simp only [Prod.mk.injEq] at h
      rw [← h.2]; exact hm
    | some n =>
      unfold idForSt at h
      split at h
      · simp only [Prod.mk.injEq] at h
        rw [← h.2]; exact hm
      · rename_i hmiss
        have hmn : m ≠ n := by
          intro he; rw [he, hmiss] at hm; exact Option.noConfusion hm
        split at h
        · simp only [Prod.mk.injEq] at h
          rw [← h.2, cacheGet_set_other _ _ _ _ hmn]; exact hm
        · split at h
          · simp only [Prod.mk.injEq] at h
            rw [← h.2, cacheGet_set_other _ _ _ _ hmn]; exact hm
          · split at h
            · simp only [Prod.mk.injEq] at h
              rw [← h.2, cacheGet_set_other _ _ _ _ hmn]; exact hm
            · split at h
              · simp only [Prod.mk.injEq] at h
                rw [← h.2, cacheGet_set_other _ _ _ _ hmn]; exact hm
              · rename_i fn hfn
                split at h
                · rename_i fid c1 hrec
                  simp only [Prod.mk.injEq] at h
                  rw [← h.2, cacheGet_set_other _ _ _ _ hmn]
                  exact ih c (some fn) (.ok fid) c1 m s hrec hm
                · rename_i e c1 hrec
                  simp only [Prod.mk.injEq] at h
                  rw [← h.2]
                  exact ih c (some fn) (.error e) c1 m s hrec hm

theorem identTail_preserves (env : Env) (c : Cache) (n : Nat)
    (r : Except Unit (List Replacement)) (c' : Cache) (m : Nat) (s : String)
    (h : identTail env c n = (r, c')) (hm : cacheGet c m = some s) :
    cacheGet c' m = some s := by
  unfold identTail at h
  split at h
  · split at h <;> (simp only [Prod.mk.injEq] at h; rw [← h.2]; exact hm)
  · split at h
    · simp only [Prod.mk.injEq] at h; rw [← h.2]; exact hm
    · split at h
      · simp only [Prod.mk.injEq] at h; rw [← h.2]; exact hm
      · split at h
        · split at h <;>
            (rename_i hcall; simp only [Prod.mk.injEq] at h; rw [← h.2];
             exact idForSt_preserves env _ _ _ _ _ m s hcall hm)
        · split at h <;>
            (rename_i hcall; simp only [Prod.mk.injEq] at h; rw [← h.2];
             exact idForSt_preserves env _ _ _ _ _ m s hcall hm)

theorem visitNodeSt_preserves (env : Env) (c : Cache) (n : Nat)
    (r : Except Unit (List Replacement)) (c' : Cache) (m : Nat) (s : String)
    (h : visitNodeSt env c n = (r, c')) (hm : cacheGet c m = some s) :
    cacheGet c' m = some s := by
  unfold visitNodeSt at h
  split at h
  · split at h
    · simp only [Prod.mk.injEq] at h; rw [← h.2]; exact hm
    · split at h
      · simp only [Prod.mk.injEq] at h; rw [← h.2]; exact hm
      · exact identTail_preserves env c n r c' m s h hm
  · split at h <;> (simp only [Prod.mk.injEq] at h; rw [← h.2]; exact hm)
  · split at h <;> (simp only [Prod.mk.injEq] at h; rw [← h.2]; exact hm)
  · split at h
    · split at h <;> (simp only [Prod.mk.injEq] at h; rw [← h.2]; exact hm)
    · simp only [Prod.mk.injEq] at h; rw [← h.2]; exact hm
  · simp only [Prod.mk.injEq] at h; rw [← h.2]; exact hm

theorem runNodes_preserves (env : Env) :
    ∀ (order : List Nat) (c : Cache) (r : Except Unit (List Replacement)) (c' : Cache)
      (m : Nat) (s : String), runNodes env order c = (r, c') →
      cacheGet c m = some s → cacheGet c' m = some s := by
  intro order
  induction order with
  | nil =>
    intro c r c' m s h hm
    simp only [runNodes, Prod.mk.injEq] at h
    rw [← h.2]; exact hm
  | cons n rest ih =>
    intro c r c' m s h hm
    unfold runNodes at h
    split at h
    · rename_i ch c1 hv
      split at h <;>
        (rename_i hrest; simp only [Prod.mk.injEq] at h; rw [← h.2];
         exact ih c1 _ _ m s hrest
           (visitNodeSt_preserves env c n _ c1 m s hv hm))
    · rename_i e c1 hv
      simp only [Prod.mk.injEq] at h
      rw [← h.2]
      exact visitNodeSt_preserves env c n _ c1 m s hv hm

/-- Every replacement a visit pushes is a single replacement lying exactly
on the span of the visit's target node. -/
theorem visit_chunk_shape (env : Env) (c : Cache) (n : Nat)
    (ch : List Replacement) (c' : Cache) (h : visitNodeSt env c n = (.ok ch, c')) :
    ch = [] ∨ ∃ t r, targetOf env n = some t ∧ ch = [r] ∧
      r.start = (env.node t).start ∧ r.stop = (env.node t).stop := by
  unfold visitNodeSt at h
  split at h
  · rename_i hkind
    split at h
    · simp only [Prod.mk.injEq, Except.ok.injEq] at h
      exact Or.inr ⟨n, _, by simp [targetOf, hkind], h.1.symm, rfl, rfl⟩
    · split at h
      · simp only [Prod.mk.injEq, Except.ok.injEq] at h
        exact Or.inr ⟨n, _, by simp [targetOf, hkind], h.1.symm, rfl, rfl⟩
      · unfold identTail at h
        split at h
        · split at h
          · simp only [Prod.mk.injEq, Except.ok.injEq] at h
            exact Or.inr ⟨n, _, by simp [targetOf, hkind], h.1.symm, rfl, rfl⟩
          · simp only [Prod.mk.injEq, Except.ok.injEq] at h
            exact Or.inl h.1.symm
        · split at h
          · simp only [Prod.mk.injEq, Except.ok.injEq] at h
            exact Or.inl h.1.symm
          · split at h
            · simp only [Prod.mk.injEq, Except.ok.injEq] at h
              exact Or.inl h.1.symm
            · split at h
              · split at h
                · simp only [Prod.mk.injEq, Except.ok.injEq] at h
                  exact Or.inr ⟨n, _, by simp [targetOf, hkind], h.1.symm, rfl, rfl⟩
                · exact absurd h (by simp)
              · split at h
                · simp only [Prod.mk.injEq, Except.ok.injEq] at h
                  exact Or.inr ⟨n, _, by simp [targetOf, hkind], h.1.symm, rfl, rfl⟩
                · exact absurd h (by simp)
  · rename_i hkind
    split at h
    · rename_i v hspec
      simp only [Prod.mk.injEq, Except.ok.injEq] at h
      exact Or.inr ⟨v, _, by simp [targetOf, hkind, hspec], h.1.symm, rfl, rfl⟩
    · simp only [Prod.mk.injEq, Except.ok.injEq] at h
      exact Or.inl h.1.symm
  · rename_i hkind
    split at h
    · rename_i v hspec
      simp only [Prod.mk.injEq, Except.ok.injEq] at h
      exact Or.inr ⟨v, _, by simp [targetOf, hkind, hspec], h.1.symm, rfl, rfl⟩
    · simp only [Prod.mk.injEq, Except.ok.injEq] at h
      exact Or.inl h.1.symm
  · rename_i hkind
    split at h
    · rename_i v hspec
      split at h
      · rename_i hlit
        simp only [Prod.mk.injEq, Except.ok.injEq] at h
        exact Or.inr ⟨v, _, by simp [targetOf, hkind, hspec, hlit], h.1.symm, rfl, rfl⟩
      · simp only [Prod.mk.injEq, Except.ok.injEq] at h
        exact Or.inl h.1.symm
    · simp only [Prod.mk.injEq, Except.ok.injEq] at h
      exact Or.inl h.1.symm
  · simp only [Prod.mk.injEq, Except.ok.injEq] at h
    exact Or.inl h.1.symm

/-! ### Span disjointness -/

theorem node_default_of_ge (env : Env) (i : Nat) (h : env.nodes.length ≤ i) :
    env.node i = defaultNode := by
  simp [Env.node, List.getElem?_eq_none h]

theorem lt_length_of_kind_ne_other (env : Env) (i : Nat)
    (h : (env.node i).kind ≠ .other) : i < env.nodes.length := by
  by_contra hge
  rw [node_default_of_ge env i (Nat.le_of_not_lt hge)] at h
  exact h rfl

theorem targetOf_leafKind (env : Env) (hwf : WF env) (n : Nat)
    (hn : n < env.nodes.length) (t : Nat) (ht : targetOf env n = some t) :
    leafKind (env.node t).kind = true := by
  unfold targetOf at ht
  split at ht
  · rename_i hk
    rw [Option.some.injEq] at ht
    rw [← ht, hk]; rfl
  · rename_i hk
    rcases hwf.2.1 n hn (Or.inl hk) with hnone | hsl
    · rw [ht] at hnone; exact absurd hnone (by simp)
    · rw [ht] at hsl
      simp only [Option.getD_some] at hsl
      rw [hsl]; rfl
  · rename_i hk
    rcases hwf.2.1 n hn (Or.inr hk) with hnone | hsl
    · rw [ht] at hnone; exact absurd hnone (by simp)
    · rw [ht] at hsl
      simp only [Option.getD_some] at hsl
      rw [hsl]; rfl
  · rename_i hk
    split at ht
    · split at ht
      · rename_i hlit
        rw [Option.some.injEq] at ht
        rw [← ht, hlit]; rfl
      · exact absurd ht (by simp)
    · exact absurd ht (by simp)
  · exact absurd ht (by simp)

/-- Targets of distinct visited nodes occupy disjoint spans. -/
theorem target_spans_disjoint (env : Env) (hwf : WF env) (n m : Nat)
    (hn : n < env.nodes.length) (hm : m < env.nodes.length) (hnm : n ≠ m)
    (t1 t2 : Nat) (h1 : targetOf env n = some t1) (h2 : targetOf env m = some t2) :
    (env.node t1).stop ≤ (env.node t2).start ∨
      (env.node t2).stop ≤ (env.node t1).start := by
  have hne : t1 ≠ t2 := by
    intro he
    rcases hwf.2.2 n hn m hm hnm with hnone | hdiff
    · rw [hnone] at h1; exact Option.noConfusion h1
    · rw [h1, h2, he] at hdiff; exact hdiff rfl
  have hl1 := targetOf_leafKind env hwf n hn t1 h1
  have hl2 := targetOf_leafKind env hwf m hm t2 h2
  have hb1 : t1 < env.nodes.length := by
    apply lt_length_of_kind_ne_other
    intro hk; rw [hk] at hl1; exact Bool.noConfusion hl1
  have hb2 : t2 < env.nodes.length := by
    apply lt_length_of_kind_ne_other
    intro hk; rw [hk] at hl2; exact Bool.noConfusion hl2
  exact hwf.1 t1 hb1 t2 hb2 hne hl1 hl2

/-- Every replacement a successful run produces lies on the span of the
target of one of the visited nodes. -/
theorem runNodes_mem_target (env : Env) :
    ∀ (order : List Nat) (c : Cache) (reps : List Replacement) (c' : Cache),
      runNodes env order c = (.ok reps, c') → ∀ r ∈ reps,
      ∃ m ∈ order, ∃ t, targetOf env m = some t ∧
        r.start = (env.node t).start ∧ r.stop = (env.node t).stop := by
  intro order
  induction order with
  | nil =>
    intro c reps c' h r hr
    simp only [runNodes, Prod.mk.injEq, Except.ok.injEq] at h
    rw [← h.1] at hr
    exact absurd hr (List.not_mem_nil r)
  | cons n rest ih =>
    intro c reps c' h r hr
    unfold runNodes at h
    split at h
    · rename_i ch c1 hv
      split at h
      · rename_i rs c2 hrest
        simp only [Prod.mk.injEq, Except.ok.injEq] at h
        rw [← h.1] at hr
        rcases List.mem_append.mp hr with hch | hrs
        · rcases visit_chunk_shape env c n ch c1 hv with hnil | ⟨t, r0, ht, hch0, hs, he⟩
          · rw [hnil] at hch; exact absurd hch (List.not_mem_nil r)
          · rw [hch0, List.mem_singleton] at hch
            exact ⟨n, List.mem_cons_self n rest, t, ht, by rw [hch]; exact ⟨hs, he⟩⟩
        · obtain ⟨m, hm, t, ht, hspan⟩ := ih c1 rs c2 hrest r hrs
          exact ⟨m, List.mem_cons_of_mem n hm, t, ht, hspan⟩
      · exact absurd h (by simp)
    · exact absurd h (by simp)

/-- A successful run over distinct nodes produces pairwise disjoint
replacements. -/
theorem runNodes_pairwise (env : Env) (hwf : WF env) :
    ∀ (order : List Nat) (c : Cache) (reps : List Replacement) (c' : Cache),
      order.Nodup → (∀ m ∈ order, m < env.nodes.length) →
      runNodes env order c = (.ok reps, c') → reps.Pairwise Disj := by
  intro order
  induction order with
  | nil =>
    intro c reps c' _ _ h
    simp only [runNodes, Prod.mk.injEq, Except.ok.injEq] at h
    rw [← h.1]; exact List.Pairwise.nil
  | cons n rest ih =>
    intro c reps c' hnd hlt h
    unfold runNodes at h
    split at h
    · rename_i ch c1 hv
      split at h
      · rename_i rs c2 hrest
        simp only [Prod.mk.injEq, Except.ok.injEq] at h
        rw [← h.1]
        apply List.pairwise_append.mpr
        refine ⟨?_, ?_, ?_⟩
        · rcases visit_chunk_shape env c n ch c1 hv with hnil | ⟨t, r0, ht, hch0, hs, he⟩
          · rw [hnil]; exact List.Pairwise.nil
          · rw [hch0]; exact List.pairwise_singleton Disj r0
        · exact ih c1 rs c2 (List.Nodup.of_cons hnd)
            (fun m hm => hlt m (List.mem_cons_of_mem n hm)) hrest
        · intro a ha b hb
          rcases visit_chunk_shape env c n ch c1 hv with hnil | ⟨t, r0, ht, hch0, hs, he⟩
          · rw [hnil] at ha; exact absurd ha (List.not_mem_nil a)
          · rw [hch0, List.mem_singleton] at ha
            obtain ⟨m, hm, t2, ht2, hs2, he2⟩ := runNodes_mem_target env rest c1 rs c2 hrest b hb
            have hnm : n ≠ m := by
              intro he'; rw [he'] at hnd
              exact (List.nodup_cons.mp hnd).1 hm
            have := target_spans_disjoint env hwf n m
              (hlt n (List.mem_cons_self n rest)) (hlt m (List.mem_cons_of_mem n hm))
              hnm t t2 ht ht2
            unfold Disj
            rw [ha, hs, he, hs2, he2]
            exact this
      · exact absurd h (by simp)
    · exact absurd h (by simp)

/-! ### Lemmas for the single-declaration symbol property -/

theorem idForSt_hit (env : Env) (fuel : Nat) (c : Cache) (n : Nat) (v : String)
    (h : cacheGet c n = some v) :
    idForSt env (fuel + 1) c (some n) = (.ok v, c) := by
  unfold idForSt
  rw [h]

theorem mem_occIds (env : Env) (sid n : Nat) :
    n ∈ occIds env sid ↔ n < env.nodes.length ∧ occPred env sid n = true := by
  unfold occIds
  rw [List.mem_filter, List.mem_range]

theorem atOcc_of_span (env : Env) (sid n : Nat) (r : Replacement)
    (hn : n ∈ occIds env sid) (hs : r.start = (env.node n).start)
    (he : r.stop = (env.node n).stop) : atOcc env sid r = true := by
  unfold atOcc
  rw [List.any_eq_true]
  exact ⟨n, hn, by rw [hs, he]; simp⟩

theorem isDefinition_single (env : Env) (sid d0 dn : Nat)
    (hdecl : (env.sym sid).declarations = [d0])
    (hvd : (env.sym sid).valueDeclaration = none ∨
      (env.sym sid).valueDeclaration = some d0)
    (hname : (env.node d0).name = some dn) (n : Nat) :
    isDefinition env sid n = (dn == n) := by
  rcases hvd with hv | hv
  · unfold isDefinition
    rw [hv]
    dsimp only
    rw [hdecl]
    rw [if_neg (by simp)]
    dsimp only
    rw [hname]
    by_cases hdn : dn = n <;> simp [hdn]
  · unfold isDefinition
    rw [hv]
    dsimp only
    rw [hname]
    by_cases hdn : dn = n <;> simp [hdn]

/-- Visiting an occurrence of a single-declaration symbol calls `idFor`
on the declaration's name `dn` and pushes exactly one replacement: the
definition anchor at `dn`, or a reference to `dn`'s id elsewhere. -/
theorem occ_visit_chunk (env : Env) (sid d0 dn : Nat)
    (hdecl : (env.sym sid).declarations = [d0])
    (hvd : (env.sym sid).valueDeclaration = none ∨
      (env.sym sid).valueDeclaration = some d0)
    (hname : (env.node d0).name = some dn)
    (hlib : libPrefixed (env.node d0).file = false)
    (n : Nat) (hk : (env.node n).kind = .identifier)
    (hsy : env.symbolAt n = some sid)
    (hspec : (env.node (getStatement env n)).moduleSpecifier = none)
    (c : Cache) (ch : List Replacement) (c1 : Cache)
    (h : visitNodeSt env c n = (.ok ch, c1)) :
    ∃ s, idForSt env (env.nodes.length + 1) c (some dn) = (.ok s, c1) ∧
      ch = [if n = dn then defChunk env dn s else refChunk env n ("#" ++ s)] := by
  unfold visitNodeSt at h
  rw [hk] at h
  dsimp only at h
  split at h
  · rename_i hc
    rw [hspec] at hc
    simp at hc
  · split at h
    · rename_i hc
      rw [hspec] at hc
      simp at hc
    · unfold identTail at h
      rw [hsy] at h
      dsimp only at h
      rw [hdecl] at h
      dsimp only at h
      rw [isDefinition_single env sid d0 dn hdecl hvd hname n] at h
      have hvdecl : ((env.sym sid).valueDeclaration.getD d0) = d0 := by
        rcases hvd with hv | hv <;> simp [hv]
      rw [hvdecl, hname] at h
      split at h
      · rename_i hall
        rcases hvd with hv | hv <;> (rw [hv] at hall; simp [hlib] at hall)
      · split at h
        · rename_i hdef
          have hdn : n = dn := by
            have := beq_iff_eq.mp hdef
            exact this.symm
          split at h
          · rename_i id c1' hcall
            simp only [Prod.mk.injEq, Except.ok.injEq] at h
            rw [hdn] at hcall
            exact ⟨id, by rw [hcall, h.2], by rw [← h.1, if_pos hdn, hdn]⟩
          · exact absurd h (by simp)
        · rename_i hdef
          have hdn : n ≠ dn := by
            intro he
            exact hdef (by rw [he]; simp)
          split at h
          · rename_i id c1' hcall
            simp only [Prod.mk.injEq, Except.ok.injEq] at h
            exact ⟨id, by rw [hcall, h.2], by rw [← h.1, if_neg hdn]⟩
          · exact absurd h (by simp)

theorem targetOf_cases (env : Env) (hwf : WF env) (n : Nat)
    (hn : n < env.nodes.length) (t : Nat) (ht : targetOf env n = some t) :
    (t = n ∧ (env.node n).kind = .identifier) ∨ (env.node t).kind = .stringLiteral := by
  unfold targetOf at ht
  split at ht
  · rename_i hk
    rw [Option.some.injEq] at ht
    exact Or.inl ⟨ht.symm, hk⟩
  · rename_i hk
    rcases hwf.2.1 n hn (Or.inl hk) with hnone | hsl
    · rw [ht] at hnone; exact absurd hnone (by simp)
    · rw [ht] at hsl
      simp only [Option.getD_some] at hsl
      exact Or.inr hsl
  · rename_i hk
    rcases hwf.2.1 n hn (Or.inr hk) with hnone | hsl
    · rw [ht] at hnone; exact absurd hnone (by simp)
    · rw [ht] at hsl
      simp only [Option.getD_some] at hsl
      exact Or.inr hsl
  · split at ht
    · split at ht
      · rename_i hlit
        rw [Option.some.injEq] at ht
        rw [← ht]
        exact Or.inr hlit
      · exact absurd ht (by simp)
    · exact absurd ht (by simp)
  · exact absurd ht (by simp)

/-- A visit of a node that is not an occurrence of `sid` contributes no
replacement lying on an occurrence's span. -/
theorem nonocc_chunk_filter (env : Env) (hwf : WF env) (sid : Nat)
    (hocc : ∀ n' ∈ occIds env sid, (env.node n').start < (env.node n').stop)
    (m : Nat) (hm : m < env.nodes.length) (hop : occPred env sid m = false)
    (c : Cache) (ch : List Replacement) (c1 : Cache)
    (h : visitNodeSt env c m = (.ok ch, c1)) :
    ch.filter (atOcc env sid) = [] := by
  rcases visit_chunk_shape env c m ch c1 h with hnil | ⟨t, r0, ht, hch0, hs, he⟩
  · rw [hnil]; rfl
  · have hao : ¬ (atOcc env sid r0 = true) := by
      intro ha
      unfold atOcc at ha
      rw [List.any_eq_true] at ha
      obtain ⟨n', hn', hcond⟩ := ha
      rw [Bool.and_eq_true, decide_eq_true_eq, decide_eq_true_eq] at hcond
      obtain ⟨hcs, hce⟩ := hcond
      obtain ⟨hn'lt, hop'⟩ := (mem_occIds env sid n').mp hn'
      have hkn' : (env.node n').kind = .identifier := by
        unfold occPred at hop'
        rw [Bool.and_eq_true, decide_eq_true_eq] at hop'
        exact hop'.1
      have htn : t ≠ n' := by
        intro hte
        rcases targetOf_cases env hwf m hm t ht with ⟨htm, _⟩ | hklit
        · rw [htm] at hte
          rw [hte, hop'] at hop
          exact Bool.noConfusion hop
        · rw [hte, hkn'] at hklit
          exact SKind.noConfusion hklit
      have hlt : leafKind (env.node t).kind = true := targetOf_leafKind env hwf m hm t ht
      have hln' : leafKind (env.node n').kind = true := by rw [hkn']; rfl
      have htlt : t < env.nodes.length := by
        apply lt_length_of_kind_ne_other
        intro hk0
        rw [hk0] at hlt
        exact Bool.noConfusion hlt
      have hdisj := hwf.1 t htlt n' hn'lt htn hlt hln'
      have hsp := hocc n' hn'
      rw [hs] at hcs
      rw [he] at hce
      rcases hdisj with hd | hd <;> omega
    have hfalse : atOcc env sid r0 = false := by
      revert hao
      cases atOcc env sid r0 <;> simp
    rw [hch0, List.filter_singleton, hfalse]
    rfl

/-- Main induction for the single-declaration symbol property: along a
successful run, the replacements lying on occurrences of the symbol are
exactly one definition anchor at the declaring name `dn` and references
`#I` elsewhere, for a single id `I`. -/
theorem runNodes_occ_filter (env : Env) (hwf : WF env) (sid d0 dn : Nat)
    (hdecl : (env.sym sid).declarations = [d0])
    (hvd : (env.sym sid).valueDeclaration = none ∨
      (env.sym sid).valueDeclaration = some d0)
    (hname : (env.node d0).name = some dn)
    (hlib : libPrefixed (env.node d0).file = false)
    (hocc : ∀ n' ∈ occIds env sid,
      (env.node (getStatement env n')).moduleSpecifier = none ∧
      (env.node n').start < (env.node n').stop) :
    ∀ (order : List Nat), (∀ m ∈ order, m < env.nodes.length) →
    ∀ (c : Cache) (reps : List Replacement) (c' : Cache),
      runNodes env order c = (.ok reps, c') →
      ∃ I, reps.filter (atOcc env sid) =
          (order.filter (occPred env sid)).map
            (fun n => if n = dn then defChunk env dn I else refChunk env n ("#" ++ I)) ∧
        (∀ J, cacheGet c dn = some J → I = J) ∧
        (cacheGet c' dn = some I ∨ (order.filter (occPred env sid)) = []) := by
  intro order
  induction order with
  | nil =>
    intro _ c reps c' h
    simp only [runNodes, Prod.mk.injEq, Except.ok.injEq] at h
    refine ⟨(cacheGet c dn).getD "", ?_, ?_, ?_⟩
    · rw [← h.1]; rfl
    · intro J hJ; rw [hJ]; rfl
    · right; rfl
  | cons n rest ih =>
    intro hbound c reps c' h
    unfold runNodes at h
    split at h
    · rename_i ch c1 hv
      split at h
      · rename_i rs c2 hrest
        simp only [Prod.mk.injEq, Except.ok.injEq] at h
        obtain ⟨hreps, hc'⟩ := h
        have hrestbound : ∀ m ∈ rest, m < env.nodes.length :=
          fun m hm => hbound m (List.mem_cons_of_mem n hm)
        by_cases hop : occPred env sid n = true
        · have hnlt := hbound n (List.mem_cons_self n rest)
          have hnin : n ∈ occIds env sid := (mem_occIds env sid n).mpr ⟨hnlt, hop⟩
          have hkn : (env.node n).kind = .identifier := by
            unfold occPred at hop
            rw [Bool.and_eq_true, decide_eq_true_eq] at hop
            exact hop.1
          have hsyn : env.symbolAt n = some sid := by
            unfold occPred at hop
            rw [Bool.and_eq_true] at hop
            exact beq_iff_eq.mp hop.2
          obtain ⟨hspec, _⟩ := hocc n hnin
          obtain ⟨s, hid, hch⟩ := occ_visit_chunk env sid d0 dn hdecl hvd hname hlib
            n hkn hsyn hspec c ch c1 hv
          have hc1dn : cacheGet c1 dn = some s := idForSt_ok_cached env _ c dn s c1 hid
          obtain ⟨I', hfil', hJ', hend'⟩ := ih hrestbound c1 rs c2 hrest
          have hIs : I' = s := hJ' s hc1dn
          refine ⟨s, ?_, ?_, ?_⟩
          · rw [← hreps, List.filter_append, hch, List.filter_singleton]
            have hchocc : atOcc env sid
                (if n = dn then defChunk env dn s else refChunk env n ("#" ++ s)) = true := by
              by_cases hdn : n = dn
              · rw [if_pos hdn]
                exact atOcc_of_span env sid n _ hnin (by rw [hdn]; rfl) (by rw [hdn]; rfl)
              · rw [if_neg hdn]
                exact atOcc_of_span env sid n _ hnin rfl rfl
            rw [hchocc, List.filter_cons_of_pos hop, List.map_cons, hfil', hIs]
            rfl
          · intro J hJ
            have hhit := idForSt_hit env env.nodes.length c dn J hJ
            rw [hhit] at hid
            simp only [Prod.mk.injEq, Except.ok.injEq] at hid
            exact hid.1.symm
          · left
            rw [← hc']
            exact runNodes_preserves env rest c1 _ c2 dn s hrest hc1dn
        · have hopf : occPred env sid n = false := by
            revert hop
            cases occPred env sid n <;> simp
          obtain ⟨I', hfil', hJ', hend'⟩ := ih hrestbound c1 rs c2 hrest
          refine ⟨I', ?_, ?_, ?_⟩
          · rw [← hreps, List.filter_append,
              nonocc_chunk_filter env hwf sid (fun n' hn' => (hocc n' hn').2)
                n (hbound n (List.mem_cons_self n rest)) hopf c ch c1 hv,
              List.nil_append, List.filter_cons_of_neg hop]
            exact hfil'
          · intro J hJ
            exact hJ' J (visitNodeSt_preserves env c n _ c1 dn J hv hJ)
          · rw [List.filter_cons_of_neg hop, ← hc']
            exact hend'
      · exact absurd h (by simp)
    · exact absurd h (by simp)

/-! ### Claim theorems -/

/-- C1: for every environment satisfying the parser's guarantees (disjoint
leaf spans, string-literal specifiers, distinct replacement targets), the
replacement set produced by one annotation pass is pairwise
non-overlapping: the spans of any two distinct replacements are disjoint —
equivalently, sorted by start offset, each replacement ends no later than
the next begins. -/
theorem c1_replacements_nonoverlapping (env : Env) (c0 : Cache) (hwf : WF env)
    (reps : List Replacement) (h : (linkToDefinitions env c0).1 = .ok reps) :
    reps.Pairwise Disj := by
  unfold linkToDefinitions at h
  split at h
  · rename_i reps' c' hrun
    simp only [Except.ok.injEq] at h
    rw [← h]
    exact runNodes_pairwise env hwf (List.range env.nodes.length) c0 reps' c'
      (List.nodup_range _) (fun m hm => List.mem_range.mp hm) hrun
  · exact absurd h (by simp)

theorem c1_witness :
    [defChunk envA 2 "symbol-x", refChunk envA 3 "#symbol-x",
      refChunk envA 4 "#symbol-x"].Pairwise Disj :=
  c1_replacements_nonoverlapping envA [] (by unfold WF; decide) _ (by rfl)

/-- C2 counterexample: on `envB` the traversal fails (symbol `b`'s only
declaration has no name node, so annotating the reference `b` calls
`idFor(undefined)`, which raises a TypeError) and the pass exits with the
identity-allocator cache still holding the entry cached while annotating
`a`: the clear is skipped on the failure exit path, because
`idCache.clear()` runs after `walkAST` returns rather than in a `finally`
block, so the entry is observable by a subsequent pass. -/
theorem c2_counterexample :
    linkToDefinitions envB [] = (.error (), [(1, "symbol-a")]) ∧
      cacheGet (linkToDefinitions envB []).2 1 = some "symbol-a" := by
  constructor
  · rfl
  · rfl

/-- C2 (amended): the Identity Allocator cache is cleared at the end of the
pass whenever the traversal completes normally; on an exceptional exit the
clear is skipped and the cache keeps its entries. -/
theorem c2_amended_cleared_on_success (env : Env) (c0 : Cache)
    (reps : List Replacement) (h : (linkToDefinitions env c0).1 = .ok reps) :
    (linkToDefinitions env c0).2 = [] := by
  rcases hrun : runNodes env (List.range env.nodes.length) c0 with ⟨r, c⟩
  cases r with
  | ok v =>
    unfold linkToDefinitions
    rw [hrun]
  | error e =>
    exfalso
    unfold linkToDefinitions at h
    rw [hrun] at h
    simp at h

theorem c2_amended_witness : (linkToDefinitions envA []).2 = [] :=
  c2_amended_cleared_on_success envA []
    [defChunk envA 2 "symbol-x", refChunk envA 3 "#symbol-x",
      refChunk envA 4 "#symbol-x"] (by rfl)

/-- C3: for a symbol with exactly one declaration (node `d0`, named by the
identifier `dn`), a completed pass produces, among the replacements lying
on the symbol's occurrences, exactly one definition anchor — at the
declaring occurrence `dn`, with some id `I` — and every one of the N
reference occurrences is emitted as a link whose target is exactly
`"#" ++ I`, the id obtained for the declaration's name node. -/
theorem c3_single_decl_anchor_refs (env : Env) (sid d0 dn : Nat)
    (reps : List Replacement) (hwf : WF env)
    (hdecl : (env.sym sid).declarations = [d0])
    (hvd : (env.sym sid).valueDeclaration = none ∨
      (env.sym sid).valueDeclaration = some d0)
    (hname : (env.node d0).name = some dn)
    (hlib : libPrefixed (env.node d0).file = false)
    (_hdn : dn ∈ occIds env sid)
    (hocc : ∀ n' ∈ occIds env sid,
      (env.node (getStatement env n')).moduleSpecifier = none ∧
      (env.node n').start < (env.node n').stop)
    (h : (linkToDefinitions env []).1 = .ok reps) :
    ∃ I, reps.filter (atOcc env sid) =
      (occIds env sid).map
        (fun n => if n = dn then defChunk env dn I else refChunk env n ("#" ++ I)) := by
  unfold linkToDefinitions at h
  split at h
  · rename_i reps' c' hrun
    simp only [Except.ok.injEq] at h
    obtain ⟨I, hfil, _, _⟩ := runNodes_occ_filter env hwf sid d0 dn hdecl hvd hname
      hlib hocc (List.range env.nodes.length) (fun m hm => List.mem_range.mp hm)
      [] reps' c' hrun
    rw [← h]
    exact ⟨I, hfil⟩
  · exact absurd h (by simp)

theorem c3_witness :
    ∃ I, ([defChunk envA 2 "symbol-x", refChunk envA 3 "#symbol-x",
        refChunk envA 4 "#symbol-x"].filter (atOcc envA 0)) =
      (occIds envA 0).map
        (fun n => if n = 2 then defChunk envA 2 I else refChunk envA n ("#" ++ I)) :=
  c3_single_decl_anchor_refs envA 0 1 2 _ (by unfold WF; decide) (by decide)
    (by decide) (by decide) (by decide) (by decide) (by decide) (by rfl)

/-- C4 counterexample: for `import {x} from "./m"` (environment `envImp`,
identifier node 6), the eligible locally-bound name is emitted as a remote
reference link *wrapping* the definition anchor: the fragment list opens
with the `<a class="ref">` token around the `<span class="definition">`
tokens.  It is not a definition anchor wrapping a link: the fragments
differ from `createDefinition` applied around `createRef` with the same id
and target. -/
theorem c4_counterexample :
    visitNodeSt envImp [] 6 =
      (.ok [⟨8, 9, createRef 8 "./m#x"
        (.toks (createDefinition 8 "symbol-x" (.str "x") 1)) 1⟩], []) ∧
    (importedLinkedChunk envImp 6 1).frags ≠
      createDefinition 8 "symbol-x" (.toks (createRef 8 "./m#x" (.str "x") 1)) 1 := by
  constructor
  · rfl
  · decide

/-- C4 (amended): for an identifier in import/export context that is the
locally-bound name, eligibility for a remote link decides the emitted
replacement: when eligible it is a single replacement consisting of a
remote reference link wrapping a definition anchor (the link is the
outermost markup, the anchor nested inside); when not eligible (namespace import,
or a rename whose source is another node) it is a definition
anchor with no outbound link.  In both cases the allocator cache is left
untouched. -/
theorem c4_amended_imported_binding (env : Env) (n : Nat) (c : Cache)
    (hk : (env.node n).kind = .identifier)
    (hspec : ((env.node (getStatement env n)).moduleSpecifier).isSome = true)
    (hlocal : isLocalDeclarationB env n = true) :
    (isRemoteDeclarationB env n = true →
      visitNodeSt env c n =
        (.ok [importedLinkedChunk env n (getStatement env n)], c)) ∧
    (isRemoteDeclarationB env n = false →
      visitNodeSt env c n =
        (.ok [importedDefChunk env n (getStatement env n)], c)) := by
  constructor
  · intro hrem
    unfold visitNodeSt
    rw [hk]
    dsimp only
    rw [hspec, hlocal, hrem]
    rfl
  · intro hrem
    unfold visitNodeSt
    rw [hk]
    dsimp only
    rw [hspec, hlocal, hrem]
    rfl

theorem c4_amended_witness :
    visitNodeSt envImp [] 6 =
      (.ok [importedLinkedChunk envImp 6 (getStatement envImp 6)], []) ∧
    visitNodeSt envNs [] 5 =
      (.ok [importedDefChunk envNs 5 (getStatement envNs 5)], []) :=
  ⟨(c4_amended_imported_binding envImp 6 [] (by rfl) (by rfl) (by rfl)).1 (by rfl),
   (c4_amended_imported_binding envNs 5 [] (by rfl) (by rfl) (by rfl)).2 (by rfl)⟩

/-- C5 counterexample: the module-specifier literal `"./m"` of the
`envImp` import declaration is replaced by a *hyperlink* — an `<a
href="./m" class="hljs-string">` element around the escaped literal — not by an
unlinked span: the claim's "is not a hyperlink" fails (the fragment's
markup begins with `<a href=`). -/
theorem c5_counterexample :
    visitNodeSt envImp [] 1 = (.ok [transformImportSource envImp 2], []) ∧
    transformImportSource envImp 2 =
      ⟨16, 21, [safeTok 16
        "<a href=\"./m\" class=\"hljs-string\">&quot;./m&quot;</a>"]⟩ ∧
    "<a href=\"./m\" class=\"hljs-string\">&quot;./m&quot;</a>" =
      "<a href=" ++ "\"./m\" class=\"hljs-string\">&quot;./m&quot;</a>" := by
  refine ⟨rfl, by decide, by decide⟩

/-- C5 (amended): every import, export, or import-equals declaration
carrying a literal module specifier replaces the literal's span with a
safe, escaped, styled *hyperlink* to the module path — an
`<a href="<specifier text>" class="hljs-string">` element around the
escaped source slice; it carries no id (it is not an anchor) but it is a
link, not a plain span. -/
theorem c5_amended_specifier_link (env : Env) (st v : Nat) (c : Cache)
    (hcase : (((env.node st).kind = .importDecl ∨ (env.node st).kind = .exportDecl) ∧
        (env.node st).moduleSpecifier = some v) ∨
      ((env.node st).kind = .importEqualsDecl ∧ (env.node st).moduleRefExpr = some v ∧
        (env.node v).kind = .stringLiteral)) :
    visitNodeSt env c st = (.ok [⟨(env.node v).start, (env.node v).stop,
      [safeTok (env.node v).start
        ("<a href=\"" ++ escapeHtml (env.node v).litText ++ "\" class=\"hljs-string\">"
          ++ escapeHtml (env.node v).text ++ "</a>")]⟩], c) := by
  rcases hcase with ⟨hk | hk, hspec⟩ | ⟨hk, href, hlit⟩
  · unfold visitNodeSt
    rw [hk]
    dsimp only
    rw [hspec]
    rfl
  · unfold visitNodeSt
    rw [hk]
    dsimp only
    rw [hspec]
    rfl
  · unfold visitNodeSt
    rw [hk]
    dsimp only
    rw [href]
    dsimp only
    rw [if_pos hlit]
    rfl

theorem c5_amended_witness :
    visitNodeSt envImp [] 1 = (.ok [⟨(envImp.node 2).start, (envImp.node 2).stop,
      [safeTok (envImp.node 2).start
        ("<a href=\"" ++ escapeHtml (envImp.node 2).litText ++ "\" class=\"hljs-string\">"
          ++ escapeHtml (envImp.node 2).text ++ "</a>")]⟩], []) :=
  c5_amended_specifier_link envImp 1 2 [] (Or.inl ⟨Or.inl rfl, rfl⟩)

/-- C6: for an identifier bound through an import/export clause, the remote
link is `"<moduleSpecifierText>#<exportedName>"` where the exported name is
the rename-source property's text when a `{a as b}` form is present;
otherwise the local name's text when the clause sits in a named-import or
named-export list; otherwise the literal `"default"`. -/
theorem c6_remote_link (env : Env) (n st : Nat) :
    (∀ pn, (pnode env (env.node n).parent).propertyName = some pn →
      getRemoteLink env n st = specifierText env st ++ "#" ++ (env.node pn).text) ∧
    ((pnode env (env.node n).parent).propertyName = none →
      ((pnode env (pnode env (env.node n).parent).parent).kind = .namedImports ∨
       (pnode env (pnode env (env.node n).parent).parent).kind = .namedExports) →
      getRemoteLink env n st = specifierText env st ++ "#" ++
        (pnode env (pnode env (env.node n).parent).name).text) ∧
    ((pnode env (env.node n).parent).propertyName = none →
      ¬ ((pnode env (pnode env (env.node n).parent).parent).kind = .namedImports ∨
         (pnode env (pnode env (env.node n).parent).parent).kind = .namedExports) →
      getRemoteLink env n st = specifierText env st ++ "#" ++ "default") := by
  refine ⟨?_, ?_, ?_⟩
  · intro pn hpn
    unfold getRemoteLink
    dsimp only
    rw [hpn]
  · intro hpn hnk
    unfold getRemoteLink
    dsimp only
    rw [hpn]
    dsimp only
    rw [if_pos hnk]
  · intro hpn hnk
    unfold getRemoteLink
    dsimp only
    rw [hpn]
    dsimp only
    rw [if_neg hnk]

theorem c6_witness :
    getRemoteLink envRen 7 1 =
      specifierText envRen 1 ++ "#" ++ (envRen.node 6).text ∧
    getRemoteLink envImp 6 1 = specifierText envImp 1 ++ "#" ++
      (pnode envImp (pnode envImp (envImp.node 6).parent).name).text ∧
    getRemoteLink envDef 4 1 = specifierText envDef 1 ++ "#" ++ "default" :=
  ⟨(c6_remote_link envRen 7 1).1 6 (by rfl),
   (c6_remote_link envImp 6 1).2.1 (by rfl) (Or.inl (by rfl)),
   (c6_remote_link envDef 4 1).2.2 (by rfl) (by decide)⟩

/-- C7: when the search over the enclosing module's export table finds an
entry `E` — a symbol one of whose declarations resolves, by rename source
(`propertyName`) or local name, to the same symbol as the node — `idFor`
returns `E`'s public name, caching it, before any fallback rule applies:
the result is `E.name` whatever the node's statement nesting or parameter
context. -/
theorem c7_export_public_name (env : Env) (n : Nat) (c : Cache) (fuel : Nat)
    (E : SymInfo) (hE : exportEntryFor env n = some E)
    (hc : cacheGet c n = none) :
    idForSt env (fuel + 1) c (some n) = (.ok E.name, cacheSet c n E.name) := by
  unfold idForSt
  rw [hc]
  dsimp only
  rw [hE]

theorem c7_witness :
    idForSt envC (5 + 1) [] (some 1) = (.ok "c", cacheSet [] 1 "c") :=
  c7_export_public_name envC 1 [] 5 { name := "c", declarations := [2] }
    (by rfl) (by rfl)

/-- C8: an identifier occurrence whose resolved symbol's declarations all
originate in the bundled standard library receives no replacement at all —
the visit pushes nothing and leaves the allocator cache untouched, however
many such occurrences the file contains.  The statement-context hypothesis
records the oracle guarantee that a built-in-only symbol never occurs
as an import/export-bound name. -/
theorem c8_builtin_untouched (env : Env) (n sid : Nat) (c : Cache)
    (hk : (env.node n).kind = .identifier)
    (hsy : env.symbolAt n = some sid)
    (hne : (env.sym sid).declarations ≠ [])
    (hall : (((match (env.sym sid).valueDeclaration with
        | some v => [v]
        | none => []) ++ (env.sym sid).declarations).all
        (fun d => libPrefixed (env.node d).file)) = true)
    (hspec : (env.node (getStatement env n)).moduleSpecifier = none) :
    visitNodeSt env c n = (.ok [], c) := by
  unfold visitNodeSt
  rw [hk]
  dsimp only
  rw [hspec]
  rw [if_neg (by simp), if_neg (by simp)]
  unfold identTail
  rw [hsy]
  dsimp only
  rcases hd : (env.sym sid).declarations with _ | ⟨d0, ds⟩
  · exact absurd hd hne
  · rw [hd] at hall
    dsimp only
    rw [if_pos hall]

theorem c8_witness : visitNodeSt envBi [] 1 = (.ok [], []) :=
  c8_builtin_untouched envBi 1 0 [] (by rfl) (by rfl) (by decide) (by decide)
    (by rfl)

/-- On a cache miss, a node whose resolution does not recurse into an
enclosing function's name gets exactly the value `idForVal`. -/
theorem idForSt_step1_miss (env : Env) (n : Nat) (c : Cache) (fuel : Nat)
    (hc : cacheGet c n = none) (h1 : idForStep1 env n = true) :
    idForSt env (fuel + 1) c (some n) =
      (.ok (idForVal env n), cacheSet c n (idForVal env n)) := by
  unfold idForStep1 at h1
  unfold idForSt idForVal
  rw [hc]
  dsimp only
  rcases hE : exportEntryFor env n with _ | ex
  · dsimp only at h1 ⊢
    by_cases hsf : (pnode env (env.node (getStatement env n)).parent).kind = SKind.sourceFile
    · simp only [if_neg (not_not_intro hsf)] at h1 ⊢
      rcases hp : findParam env env.nodes.length (some n) with _ | param
      · rfl
      · dsimp only at h1 ⊢
        rcases hnm : (pnode env (env.node param).parent).name with _ | fn
        · rfl
        · rw [hE] at h1
          dsimp only at h1
          rw [hp] at h1
          dsimp only at h1
          rw [hnm] at h1
          simp at h1
    · simp only [if_pos hsf] at h1 ⊢
  · rfl

/-- C9 counterexample: in `env9` symbol `T` has two declaration sites — the
first built-in, the second local — and no value declaration.  The
definition anchor goes to the local declaration's name with id
`"symbol-T"` (the canonical, filtered-first choice), but the reference
links to `"#symbol-T-1000"`: `idFor` of the *unfiltered first* (built-in)
declaration's name, because line 155 of the source reads
`(symbol.valueDeclaration || symbol.declarations[0]).name` without the
built-in filter.  The same canonical choice does not determine both the
anchor and the reference target. -/
theorem c9_counterexample :
    linkToDefinitions env9 [] =
      (.ok [defChunk env9 5 "symbol-T", refChunk env9 7 "#symbol-T-1000"], []) ∧
    "symbol-T-1000" ≠ "symbol-T" := by
  constructor
  · rfl
  · decide

/-- C9 (amended): for a symbol with several declaration sites and no value
declaration, the anchored occurrence is determined by discarding built-in
declarations and comparing against the first remaining declaration's name
(deterministically, never failing, whether or not the ambiguity diagnostic
condition holds); local references, however, link to the id of the first
declaration *without* the built-in filter — `idFor` of
`declarations[0].name` — which can differ from the anchored occurrence's
id when the first declaration is built-in. -/
theorem c9_amended_canonical_vs_ref (env : Env) (sid d0 dL dn0 : Nat)
    (drest dLrest : List Nat)
    (hvd : (env.sym sid).valueDeclaration = none)
    (hdecl : (env.sym sid).declarations = d0 :: drest)
    (hlen : 1 < (env.sym sid).declarations.length)
    (hfil : (env.sym sid).declarations.filter
      (fun d => !(libPrefixed (env.node d).file)) = dL :: dLrest)
    (hname0 : (env.node d0).name = some dn0) :
    (∀ m, isDefinition env sid m = ((env.node dL).name == some m)) ∧
    (∀ (n : Nat) (c : Cache),
      (env.node n).kind = .identifier → env.symbolAt n = some sid →
      (env.node (getStatement env n)).moduleSpecifier = none →
      isDefinition env sid n = false →
      cacheGet c dn0 = none → idForStep1 env dn0 = true →
      visitNodeSt env c n =
        (.ok [refChunk env n ("#" ++ idForVal env dn0)],
          cacheSet c dn0 (idForVal env dn0))) := by
  constructor
  · intro m
    unfold isDefinition
    rw [hvd]
    dsimp only
    rw [if_pos hlen, hfil]
  · intro n c hk hsy hspec hdef hmiss h1
    unfold visitNodeSt
    rw [hk]
    dsimp only
    rw [hspec]
    rw [if_neg (by simp), if_neg (by simp)]
    unfold identTail
    rw [hsy]
    dsimp only
    rw [hdecl]
    dsimp only
    have hnl : libPrefixed (env.node dL).file = false := by
      have hmem : dL ∈ (env.sym sid).declarations.filter
          (fun d => !(libPrefixed (env.node d).file)) := by
        rw [hfil]
        exact List.mem_cons_self _ _
      have hb := (List.mem_filter.mp hmem).2
      revert hb
      cases libPrefixed (env.node dL).file <;> simp
    have hdLmem : dL ∈ d0 :: drest := by
      rw [← hdecl]
      exact List.mem_of_mem_filter (by rw [hfil]; exact List.mem_cons_self _ _)
    split
    · rename_i hcond
      exfalso
      rw [hvd] at hcond
      dsimp only at hcond
      have := List.all_eq_true.mp hcond dL hdLmem
      rw [hnl] at this
      exact Bool.noConfusion this
    · rw [hdef]
      rw [if_neg (by simp)]
      rw [hvd]
      simp only [Option.getD_none]
      rw [hname0]
      rw [idForSt_step1_miss env dn0 c env.nodes.length hmiss h1]

theorem c9_amended_witness :
    isDefinition env9 0 5 = ((env9.node 4).name == some 5) ∧
    visitNodeSt env9 [] 7 =
      (.ok [refChunk env9 7 ("#" ++ idForVal env9 3)],
        cacheSet [] 3 (idForVal env9 3)) :=
  ⟨(c9_amended_canonical_vs_ref env9 0 2 4 3 [4] [] (by rfl) (by rfl) (by decide)
      (by rfl) (by rfl)).1 5,
   (c9_amended_canonical_vs_ref env9 0 2 4 3 [4] [] (by rfl) (by rfl) (by decide)
      (by rfl) (by rfl)).2 7 [] (by rfl) (by rfl) (by rfl) (by rfl) (by rfl) (by rfl)⟩

/-- C10: for a locally-bound name in import/export context the definition
anchor's id is computed without consulting the Identity Allocator — the
visit leaves the cache untouched for every incoming cache — and the id is
the literal `"symbol-"` concatenated with the identifier's text when the
enclosing statement is an import declaration, and the bare identifier text
otherwise (export or import-equals declarations). -/
theorem c10_imported_id_no_allocator (env : Env) (n : Nat) (c : Cache)
    (hk : (env.node n).kind = .identifier)
    (hspec : ((env.node (getStatement env n)).moduleSpecifier).isSome = true)
    (hlocal : isLocalDeclarationB env n = true)
    (_hstmt : (env.node (getStatement env n)).kind = .importDecl ∨
      (env.node (getStatement env n)).kind = .exportDecl ∨
      (env.node (getStatement env n)).kind = .importEqualsDecl) :
    (isRemoteDeclarationB env n = true →
      visitNodeSt env c n = (.ok [mkRepl env n
        (createRef (env.node n).start (getRemoteLink env n (getStatement env n))
          (.toks (createDefinition (env.node n).start
            ((if (env.node (getStatement env n)).kind = .importDecl then "symbol-"
              else "") ++ (env.node n).text)
            (.str (env.node n).text) (env.node n).text.length))
          (env.node n).text.length)], c)) ∧
    (isRemoteDeclarationB env n = false →
      visitNodeSt env c n = (.ok [mkRepl env n
        (createDefinition (env.node n).start
          ((if (env.node (getStatement env n)).kind = .importDecl then "symbol-"
            else "") ++ (env.node n).text)
          (.str (env.node n).text) (env.node n).text.length)], c)) := by
  constructor
  · intro hrem
    unfold visitNodeSt
    rw [hk]
    dsimp only
    rw [hspec, hlocal, hrem]
    rfl
  · intro hrem
    unfold visitNodeSt
    rw [hk]
    dsimp only
    rw [hspec, hlocal, hrem]
    rfl

theorem c10_witness :
    visitNodeSt envImp [] 6 = (.ok [mkRepl envImp 6
      (createRef (envImp.node 6).start (getRemoteLink envImp 6 (getStatement envImp 6))
        (.toks (createDefinition (envImp.node 6).start
          ((if (envImp.node (getStatement envImp 6)).kind = .importDecl then "symbol-"
            else "") ++ (envImp.node 6).text)
          (.str (envImp.node 6).text) (envImp.node 6).text.length))
        (envImp.node 6).text.length)], []) ∧
    visitNodeSt envNs [] 5 = (.ok [mkRepl envNs 5
      (createDefinition (envNs.node 5).start
        ((if (envNs.node (getStatement envNs 5)).kind = .importDecl then "symbol-"
          else "") ++ (envNs.node 5).text)
        (.str (envNs.node 5).text) (envNs.node 5).text.length)], []) :=
  ⟨(c10_imported_id_no_allocator envImp 6 [] (by rfl) (by rfl) (by rfl)
      (Or.inl (by rfl))).1 (by rfl),
   (c10_imported_id_no_allocator envNs 5 [] (by rfl) (by rfl) (by rfl)
      (Or.inl (by rfl))).2 (by rfl)⟩
